import Mathlib

/-!
Shallow embedding of the metal-ipi flake-detection tool (Go).
The core under verification is the build-history collection and
flake-detection engine: `Job.ListBuilds`, `Job.ParseTests`,
`Job.Serialize` / `Job.Deserialize` and `Job.ShowIntermittentFailures`.

Modelling conventions:
* Go `float32` fields (`TestHistory.Flakes`, `JobHistory.TotalBuilds`)
  are modelled as `ℚ`; the program only ever adds `0.5` and `1.0`,
  which `float32` represents exactly in the ranges involved.
* The Go map `map[string]TestHistory` is modelled as an association
  list with in-place update (`dataInsert`) and lookup (`dataLookup`).
* Network access is modelled by passing the fetch outcome in: a build's
  `finished.json` is an `Option Finished` and its junit suite an
  `Option TestSuite` (`none` is any fetch/parse failure, which the Go
  code only ever observes as a non-nil `error`).
* A Go runtime panic (out-of-range slice index) is modelled as `none`
  in an `Option` result.
-/

namespace MetalIpi

/-- Set of test names excluded from flake accounting (`ignoreTestCases`). -/
def ignoreTestCases : List String :=
  ["[sig-arch] Monitor cluster while tests execute"]

/-- Per-build completion record published as `finished.json` (`Finished`). -/
structure Finished where
  Timestamp : Int
  Passed : Bool
  Result : String
  Revision : String
deriving DecidableEq

/-- One test case of a junit report (`TestCase`); `SkippedMessage` models
the `skipped` sub-node's message attribute. -/
structure TestCase where
  Name : String
  SkippedMessage : String
  Failure : String
  SystemOut : String
deriving DecidableEq

/-- A test is skipped when the skipped message is non-empty (`TestCase.IsSkipped`). -/
def TestCase.IsSkipped (tc : TestCase) : Bool :=
  tc.SkippedMessage != ""

/-- A test failed when the failure text is non-empty (`TestCase.IsFailure`). -/
def TestCase.IsFailure (tc : TestCase) : Bool :=
  tc.Failure != ""

/-- A test passed iff it did not fail (`TestCase.IsPassed`). -/
def TestCase.IsPassed (tc : TestCase) : Bool :=
  !tc.IsFailure

/-- A test is ignored when its name is in the ignore set (`TestCase.Ignore`). -/
def TestCase.Ignore (tc : TestCase) : Bool :=
  ignoreTestCases.contains tc.Name

/-- Junit test suite (`TestSuite`); the declared counts are carried but unused
by the analysis. -/
structure TestSuite where
  Name : String
  Tests : Int
  Skipped : Int
  Failures : Int
  Time : Int
  TestCases : List TestCase
deriving DecidableEq

/-- Accumulated flake state for one test (`TestHistory`);
`Flakes : float32` is modelled as `ℚ`. -/
structure TestHistory where
  PreviousState : Bool
  Flakes : ℚ
deriving DecidableEq

/-- Per-job analysis result (`JobHistory`); the Go `map[string]TestHistory`
is modelled as an association list. -/
structure JobHistory where
  From : Int
  To : Int
  TotalBuilds : ℚ
  Data : List (String × TestHistory)
deriving DecidableEq

/-- History of a freshly constructed job (`NewJob`): empty data, zero counts. -/
def emptyHistory : JobHistory :=
  { From := 0, To := 0, TotalBuilds := 0, Data := [] }

/-- A discovered build (`Build`): its id and completion record; the owning
job back-reference and artifact url carry no analysis content. -/
structure Build where
  id : String
  finished : Finished
deriving DecidableEq

/-- Lookup in the association-list model of the Go history map. -/
def dataLookup (d : List (String × TestHistory)) (k : String) : Option TestHistory :=
  match d with
  | [] => none
  | (k0, v0) :: rest => if k0 == k then some v0 else dataLookup rest k

/-- Insert-or-replace in the association-list model of the Go history map. -/
def dataInsert (d : List (String × TestHistory)) (k : String) (v : TestHistory) :
    List (String × TestHistory) :=
  match d with
  | [] => [(k, v)]
  | (k0, v0) :: rest =>
    if k0 == k then (k, v) :: rest else (k0, v0) :: dataInsert rest k v

/-- Lookup with the seed used by `ParseTests` for a never-before-seen test:
`TestHistory{PreviousState: true}` (Flakes zero). -/
def lookupTH (d : List (String × TestHistory)) (t : String) : TestHistory :=
  (dataLookup d t).getD { PreviousState := true, Flakes := 0 }

/-- One state observation folded into a test's history: the body of the
per-test-case update in `ParseTests` (add 0.5 on a state change, then
record the new state). -/
def flakeStep (thc : TestHistory) (passed : Bool) : TestHistory :=
  { PreviousState := passed,
    Flakes := if passed != thc.PreviousState then thc.Flakes + 1/2 else thc.Flakes }

/-- Per-test-case body of the `ParseTests` inner loop: ignored tests are
skipped, otherwise the test's (possibly seeded) history is stepped. -/
def processTestCase (d : List (String × TestHistory)) (tc : TestCase) :
    List (String × TestHistory) :=
  if tc.Ignore then d
  else dataInsert d tc.Name (flakeStep (lookupTH d tc.Name) tc.IsPassed)

/-- Fold of one suite's test cases into the history data (`ParseTests` inner loop). -/
def processSuite (d : List (String × TestHistory)) (s : TestSuite) :
    List (String × TestHistory) :=
  s.TestCases.foldl processTestCase d

/-- Per-build body of the `ParseTests` outer loop: a build whose suite fetch
fails (`FetchTestsXml` error) is skipped; otherwise its cases are folded in
and `TotalBuilds` is incremented. -/
def parseBuildStep (fetchSuite : String → Option TestSuite) (h : JobHistory)
    (b : Build) : JobHistory :=
  match fetchSuite b.id with
  | none => h
  | some s => { h with Data := processSuite h.Data s,
                       TotalBuilds := h.TotalBuilds + 1 }

/-- The `ParseTests` outer loop over all of a job's builds. -/
def parseAllBuilds (fetchSuite : String → Option TestSuite) (builds : List Build)
    (init : JobHistory) : JobHistory :=
  builds.foldl (parseBuildStep fetchSuite) init

/-- Full `Job.ParseTests`. It indexes `j.builds[0]` and `j.builds[len-1]`
unconditionally (for the log line and the window timestamps), so with zero
builds the Go code panics: modelled as `none`. On a non-empty list it folds
every build and always returns a nil error, modelled as `some (Except.ok _)`. -/
def ParseTests (fetchSuite : String → Option TestSuite) (builds : List Build)
    (init : JobHistory) : Option (Except String JobHistory) :=
  match builds with
  | [] => none
  | b :: bs =>
    let h := parseAllBuilds fetchSuite (b :: bs) init
    some (Except.ok { h with To := b.finished.Timestamp,
                             From := ((bs.getLastD b).finished).Timestamp })

/-- Number of adjacent pairs of a list whose values differ (the quantity
`ParseTests` accumulates as `2 * Flakes` for a single test). -/
def countAdj : List Bool → Nat
  | [] => 0
  | [_] => 0
  | a :: b :: rest => (if a != b then 1 else 0) + countAdj (b :: rest)

/-- Fold of a sequence of observed pass states from a given starting history
(the restriction of `ParseTests` to one test name). -/
def flakeFoldFrom (thc : TestHistory) (l : List Bool) : TestHistory :=
  l.foldl flakeStep thc

/-- Pass states recorded for test name `t` over a list of builds, in
processing order: builds whose suite fetch fails contribute nothing, and
within each fetched suite every case named `t` contributes its pass state. -/
def observedStates (fetchSuite : String → Option TestSuite) (builds : List Build)
    (t : String) : List Bool :=
  ((builds.filterMap (fun b => fetchSuite b.id)).map
    (fun s => (s.TestCases.filter (fun tc => tc.Name == t)).map TestCase.IsPassed)).flatten

/-- Go byte-lexicographic `<` on char lists (build ids are ASCII digits, so
codepoint order coincides with Go's byte order). -/
def lexLtChars : List Char → List Char → Bool
  | [], [] => false
  | [], _ :: _ => true
  | _ :: _, [] => false
  | a :: as, b :: bs => if a < b then true else if b < a then false else lexLtChars as bs

/-- Go string `<` (`sort.Strings` comparison), via the underlying characters. -/
def goLess (a b : String) : Bool :=
  lexLtChars a.data b.data

/-- Ascending insertion for the model of `sort.Strings`. -/
def insertAsc (x : String) : List String → List String
  | [] => [x]
  | y :: ys => if goLess y x then y :: insertAsc x ys else x :: y :: ys

/-- Model of `sort.Strings`: sorts the scraped build ids ascending as opaque
strings. -/
def sortStrings (l : List String) : List String :=
  l.foldr insertAsc []

/-- The unbounded descending loop of `Job.ListBuilds`
(`for n := totalBuilds - 1; ; n--`). The current index is the `Nat`
argument; an access below index 0 — which the Go code performs whenever the
break condition is still unmet after index 0 — is the out-of-range panic,
modelled as `none`. A candidate whose completion record cannot be fetched
and decoded (`fetchTestStepResult` error) is skipped silently. -/
def listLoop (ids : List String) (fetch : String → Option Finished)
    (target : Nat) : Nat → List Build → Option (List Build)
  | n, acc =>
    match ids.get? n with
    | none => none
    | some bid =>
      let acc2 := match fetch bid with
        | some fin => acc ++ [{ id := bid, finished := fin }]
        | none => acc
      if target ≤ acc2.length then some acc2
      else
        match n with
        | 0 => none
        | Nat.succ m => listLoop ids fetch target m acc2

/-- Full `Job.ListBuilds` given the scraped candidate ids and the completion
record fetch outcome per id: sort ids as opaque strings, clamp the request
to the number of candidates, then walk the sorted ids from the end. -/
def ListBuilds (scraped : List String) (fetch : String → Option Finished)
    (numBuilds : Nat) : Option (List Build) :=
  let ids := sortStrings scraped
  let target := min numBuilds ids.length
  listLoop ids fetch target (ids.length - 1) []

/-- Modelled from the spec: tokens of the opaque binary blob produced by
`encoding/gob`, which is outside this repository. A token is one primitive
value of the encoded `JobHistory`. -/
inductive Token where
  | int (i : Int)
  | str (s : String)
  | boolT (b : Bool)
  | rat (q : ℚ)
deriving DecidableEq

/-- Modelled from the spec: gob encoding of the map entries of
`JobHistory.Data`, three tokens per entry. -/
def encEntries : List (String × TestHistory) → List Token
  | [] => []
  | kv :: es => Token.str kv.1 :: Token.boolT kv.2.PreviousState ::
      Token.rat kv.2.Flakes :: encEntries es

/-- Modelled from the spec: gob encoding of a whole `JobHistory`
(fields in order, the map prefixed by its length). -/
def encodeHistory (h : JobHistory) : List Token :=
  Token.int h.From :: Token.int h.To :: Token.rat h.TotalBuilds ::
    Token.int h.Data.length :: encEntries h.Data

/-- Modelled from the spec: gob decoding of `n` map entries, returning the
entries and the remaining tokens, or `none` on malformed input. -/
def decEntries : Nat → List Token → Option (List (String × TestHistory) × List Token)
  | 0, ts => some ([], ts)
  | n + 1, Token.str k :: Token.boolT p :: Token.rat f :: ts =>
    match decEntries n ts with
    | some (es, rest) => some ((k, { PreviousState := p, Flakes := f }) :: es, rest)
    | none => none
  | _ + 1, _ => none

/-- Modelled from the spec: gob decoding of a `JobHistory` blob; any
malformed or trailing input is a decode error (`none`). -/
def decodeHistory (ts : List Token) : Option JobHistory :=
  match ts with
  | Token.int f :: Token.int t :: Token.rat tb :: Token.int n :: rest =>
    match decEntries n.toNat rest with
    | some (es, []) => some { From := f, To := t, TotalBuilds := tb, Data := es }
    | _ => none
  | _ => none

/-- Modelled from the spec: approximate byte cost of one gob token — an
integer or float occupies at most nine bytes on the gob wire, a bool one,
a string a length prefix plus its bytes. The exact figures are generous
per-token bounds; all that matters below is on which side of the 4096-byte
writer buffer a whole blob falls, and the real gob encoding of the failing
input is likewise far below that line. -/
def tokenBytes : Token → Nat
  | Token.int _ => 9
  | Token.boolT _ => 1
  | Token.rat _ => 9
  | Token.str s => 9 + s.length

/-- Modelled from the spec: byte length of a whole encoded blob. -/
def blobBytes (ts : List Token) : Nat :=
  (ts.map tokenBytes).sum

/-- Default buffer size of the `bufio.Writer` that `Job.Serialize` writes
through. -/
def writerBufferSize : Nat := 4096

/-- `Job.Serialize`: gob-encode the history and write the blob to the
freshly created (truncated) cache file through `bufio.NewWriter` — which is
never flushed, and `Close` on the underlying file does not flush it either.
A single `Write` strictly larger than the empty 4096-byte buffer is passed
straight through to the file; any smaller blob only fills the buffer and is
discarded when the process moves on, leaving the cache file empty. The
result is the cache file's content. -/
def Serialize (h : JobHistory) : List Token :=
  if writerBufferSize < blobBytes (encodeHistory h) then encodeHistory h else []

/-- `Job.Deserialize`, with the cache file's content passed in (`none` when
`os.Open` fails). When the file opens, the Go code returns `true` even if
decoding fails — the decode error is only logged and the prior history is
kept. -/
def Deserialize (file : Option (List Token)) (hist : JobHistory) :
    Bool × JobHistory :=
  match file with
  | none => (false, hist)
  | some ts =>
    match decodeHistory ts with
    | some h => (true, h)
    | none => (true, hist)

/-- Example completion record used by concrete witnesses. -/
def exFinished : Finished :=
  { Timestamp := 1640000000, Passed := true, Result := "SUCCESS", Revision := "abc" }

/-- Example test case named `ex-test`, passing or failing as requested. -/
def exCase (pass : Bool) : TestCase :=
  { Name := "ex-test", SkippedMessage := "",
    Failure := if pass then "" else "fell over", SystemOut := "" }

/-- Example test case bearing the ignored name, passing or failing as requested. -/
def exIgnoredCase (pass : Bool) : TestCase :=
  { Name := "[sig-arch] Monitor cluster while tests execute", SkippedMessage := "",
    Failure := if pass then "" else "monitor blip", SystemOut := "" }

/-- Example suite holding one tracked and one ignored test case. -/
def exSuite (pass : Bool) : TestSuite :=
  { Name := "suite", Tests := 2, Skipped := 0,
    Failures := if pass then 0 else 2, Time := 3,
    TestCases := [exCase pass, exIgnoredCase pass] }

/-- Example build with the given id. -/
def exBuild (i : String) : Build :=
  { id := i, finished := exFinished }

/-- Example suite-fetch outcome: builds 1 and 3 pass `ex-test`, build 2
fails it, any other build has no retrievable suite. -/
def exFetch : String → Option TestSuite := fun i =>
  if i = "1" then some (exSuite true)
  else if i = "2" then some (exSuite false)
  else if i = "3" then some (exSuite true)
  else none

/-- Example build list for the witnesses. -/
def exBuilds : List Build :=
  [exBuild "1", exBuild "2", exBuild "3"]

/-- The entry list built and sorted by `Job.ShowIntermittentFailures`:
tests with a zero flake score are skipped, each kept test is paired with
`Flakes / TotalBuilds`, and the list is sorted by flakiness descending
(`sort.Slice` with a strict greater-than comparator, modelled by insertion
sort for the same ordering). -/
def flakyTests (h : JobHistory) : List (String × ℚ) :=
  List.insertionSort (fun a b => b.2 ≤ a.2)
    ((h.Data.filter (fun kv => !(kv.2.Flakes == 0))).map
      (fun kv => (kv.1, kv.2.Flakes / h.TotalBuilds)))

/-- Example accumulated history: test "a" flapped twice (score 1), test "b"
never changed state (score 0), over two analyzed builds. -/
def exHistory : JobHistory :=
  { From := 0, To := 86400, TotalBuilds := 2,
    Data := [("a", { PreviousState := false, Flakes := 1 }),
             ("b", { PreviousState := true, Flakes := 0 })] }

/-- Observer: did a `ParseTests` run return normally with a nil error? -/
def runOk : Option (Except String JobHistory) → Bool
  | some (Except.ok _) => true
  | _ => false

/-- Observer: `TotalBuilds` of a normally returned `ParseTests` run. -/
def runTotal : Option (Except String JobHistory) → Option ℚ
  | some (Except.ok h) => some h.TotalBuilds
  | _ => none

end MetalIpi

namespace MetalIpi

theorem bneComm (a b : Bool) : (a != b) = (b != a) := by
  cases a <;> cases b <;> rfl

theorem countAdj_cons_cons (a b : Bool) (l : List Bool) :
    countAdj (a :: b :: l) = (if a != b then 1 else 0) + countAdj (b :: l) := rfl

theorem dataLookup_dataInsert (d : List (String × TestHistory)) (k : String)
    (v : TestHistory) (t : String) :
    dataLookup (dataInsert d k v) t = if k = t then some v else dataLookup d t := by
  induction d with
  | nil =>
    by_cases h : k = t <;> simp [dataInsert, dataLookup, h]
  | cons kv rest ih =>
    obtain ⟨k0, v0⟩ := kv
    by_cases h1 : k0 = k
    · subst h1
      by_cases h2 : k0 = t <;> simp [dataInsert, dataLookup, h2]
    · by_cases h2 : k0 = t
      · have h3 : ¬ k = t := fun he => h1 (h2.trans he.symm)
        have h4 : ¬ t = k := fun he => h3 he.symm
        simp [dataInsert, dataLookup, h1, h2, h3, h4]
      · simp [dataInsert, dataLookup, h1, h2, ih]

theorem lookupTH_dataInsert_same (d : List (String × TestHistory)) (k : String)
    (v : TestHistory) : lookupTH (dataInsert d k v) k = v := by
  simp [lookupTH, dataLookup_dataInsert]

theorem lookupTH_dataInsert_other (d : List (String × TestHistory)) (k : String)
    (v : TestHistory) (t : String) (h : ¬ k = t) :
    lookupTH (dataInsert d k v) t = lookupTH d t := by
  simp [lookupTH, dataLookup_dataInsert, h]

theorem lookupTH_processCases (t : String)
    (ht : ignoreTestCases.contains t = false) :
    ∀ (cs : List TestCase) (d : List (String × TestHistory)),
      lookupTH (cs.foldl processTestCase d) t =
        flakeFoldFrom (lookupTH d t)
          ((cs.filter (fun tc => tc.Name == t)).map TestCase.IsPassed)
  | [], d => rfl
  | tc :: cs, d => by
    by_cases hn : tc.Name = t
    · have hi : tc.Ignore = false := by
        simpa [TestCase.Ignore, hn] using ht
      have ih := lookupTH_processCases t ht cs
        (dataInsert d tc.Name (flakeStep (lookupTH d tc.Name) tc.IsPassed))
      rw [hn, lookupTH_dataInsert_same] at ih
      simp only [flakeFoldFrom] at ih ⊢
      simp [List.foldl_cons, processTestCase, hi, List.filter_cons, hn, ih]
    · by_cases hi : tc.Ignore
      · have ih := lookupTH_processCases t ht cs d
        simp [List.foldl_cons, processTestCase, hi, List.filter_cons, hn, ih]
      · have ih := lookupTH_processCases t ht cs
          (dataInsert d tc.Name (flakeStep (lookupTH d tc.Name) tc.IsPassed))
        simp [List.foldl_cons, processTestCase, hi, List.filter_cons, hn, ih,
          lookupTH_dataInsert_other _ _ _ _ hn]

theorem lookupTH_parseAllBuilds (fetchSuite : String → Option TestSuite)
    (t : String) (ht : ignoreTestCases.contains t = false) :
    ∀ (builds : List Build) (h : JobHistory),
      lookupTH (parseAllBuilds fetchSuite builds h).Data t =
        flakeFoldFrom (lookupTH h.Data t) (observedStates fetchSuite builds t)
  | [], h => by simp [parseAllBuilds, observedStates, flakeFoldFrom]
  | b :: bs, h => by
    have ih := lookupTH_parseAllBuilds fetchSuite t ht bs
    cases hf : fetchSuite b.id with
    | none =>
      simp [parseAllBuilds, List.foldl_cons, parseBuildStep, hf, observedStates,
        List.filterMap_cons] at ih ⊢
      exact ih _
    | some s =>
      have hsuite := lookupTH_processCases t ht s.TestCases h.Data
      simp [parseAllBuilds, List.foldl_cons, parseBuildStep, hf, observedStates,
        List.filterMap_cons, processSuite] at ih ⊢
      rw [ih, hsuite, flakeFoldFrom, flakeFoldFrom, flakeFoldFrom,
        List.foldl_append]

theorem flakeFoldFrom_flakes :
    ∀ (l : List Bool) (p : Bool) (f : ℚ),
      (flakeFoldFrom { PreviousState := p, Flakes := f } l).Flakes
        = f + (countAdj (p :: l) : ℚ) / 2
  | [], p, f => by simp [flakeFoldFrom, countAdj]
  | s :: rest, p, f => by
    have ih := flakeFoldFrom_flakes rest s (if s != p then f + 1/2 else f)
    rw [countAdj_cons_cons, bneComm]
    simp only [flakeFoldFrom, List.foldl_cons, flakeStep] at ih ⊢
    rw [ih]
    by_cases hsp : (s != p) = true
    · simp [hsp]
      ring
    · simp [hsp]

theorem countAdj_le_append :
    ∀ (l1 l2 : List Bool), countAdj l1 ≤ countAdj (l1 ++ l2)
  | [], l2 => Nat.zero_le _
  | [a], l2 => Nat.zero_le _
  | a :: b :: rest, l2 => by
    have ih := countAdj_le_append (b :: rest) l2
    simp only [List.cons_append, countAdj_cons_cons] at ih ⊢
    omega

theorem observedStates_append (fetchSuite : String → Option TestSuite)
    (builds more : List Build) (t : String) :
    observedStates fetchSuite (builds ++ more) t =
      observedStates fetchSuite builds t ++ observedStates fetchSuite more t := by
  simp [observedStates, List.filterMap_append]

theorem countAdj_singleton (a : Bool) : countAdj [a] = 0 := rfl

theorem countAdj_cons_head (a : Bool) (l : List Bool) :
    countAdj (a :: l) =
      (match l.head? with | none => 0 | some b => if a != b then 1 else 0)
        + countAdj l := by
  cases l <;> rfl

theorem countAdj_snoc :
    ∀ (l : List Bool) (x : Bool),
      countAdj (l ++ [x]) =
        countAdj l +
          (match l.getLast? with | none => 0 | some y => if y != x then 1 else 0)
  | [], x => rfl
  | [a], x => by simp [countAdj_cons_cons, countAdj_singleton, countAdj]
  | a :: b :: rest, x => by
    have ih := countAdj_snoc (b :: rest) x
    simp only [List.cons_append] at ih ⊢
    rw [countAdj_cons_cons, ih, countAdj_cons_cons, List.getLast?_cons_cons]
    omega

theorem countAdj_reverse : ∀ l : List Bool, countAdj l.reverse = countAdj l
  | [] => rfl
  | a :: l => by
    have ih := countAdj_reverse l
    rw [List.reverse_cons, countAdj_snoc, ih, countAdj_cons_head a l,
      List.getLast?_reverse]
    cases hl : l.head? with
    | none => simp
    | some b => simp [bneComm]; omega

theorem dataLookup_processCases_ignored (t : String)
    (ht : ignoreTestCases.contains t = true) :
    ∀ (cs : List TestCase) (d : List (String × TestHistory)),
      dataLookup (cs.foldl processTestCase d) t = dataLookup d t
  | [], d => rfl
  | tc :: cs, d => by
    have ih := dataLookup_processCases_ignored t ht cs
    by_cases hi : tc.Ignore
    · simp [List.foldl_cons, processTestCase, hi, ih]
    · have hn : ¬ tc.Name = t := by
        intro he
        exact hi (by simpa [TestCase.Ignore, he] using ht)
      simp [List.foldl_cons, processTestCase, hi, ih, dataLookup_dataInsert, hn]

theorem dataLookup_parseAllBuilds_ignored (t : String)
    (ht : ignoreTestCases.contains t = true)
    (fetchSuite : String → Option TestSuite) :
    ∀ (builds : List Build) (init : JobHistory),
      dataLookup (parseAllBuilds fetchSuite builds init).Data t =
        dataLookup init.Data t
  | [], init => rfl
  | b :: bs, init => by
    have ih := dataLookup_parseAllBuilds_ignored t ht fetchSuite bs
    cases hf : fetchSuite b.id with
    | none =>
      simp [parseAllBuilds, List.foldl_cons, parseBuildStep, hf] at ih ⊢
      exact ih _
    | some s =>
      simp [parseAllBuilds, List.foldl_cons, parseBuildStep, hf, processSuite]
        at ih ⊢
      rw [ih]
      exact dataLookup_processCases_ignored t ht s.TestCases init.Data

theorem decEntries_encEntries :
    ∀ (es : List (String × TestHistory)) (rest : List Token),
      decEntries es.length (encEntries es ++ rest) = some (es, rest)
  | [], rest => rfl
  | kv :: es, rest => by
    have ih := decEntries_encEntries es rest
    simp only [encEntries, List.cons_append, List.length_cons, decEntries,
      List.append_eq]
    rw [ih]

theorem decode_encode (h : JobHistory) :
    decodeHistory (encodeHistory h) = some h := by
  have hent := decEntries_encEntries h.Data []
  rw [List.append_nil] at hent
  simp [encodeHistory, decodeHistory, Int.toNat_natCast, hent]

theorem parseAllBuilds_totalBuilds (fetchSuite : String → Option TestSuite) :
    ∀ (builds : List Build) (init : JobHistory),
      (parseAllBuilds fetchSuite builds init).TotalBuilds
        = init.TotalBuilds
          + ((builds.filterMap (fun b => fetchSuite b.id)).length : ℚ)
  | [], init => by simp [parseAllBuilds]
  | b :: bs, init => by
    have ih := parseAllBuilds_totalBuilds fetchSuite bs
    cases hf : fetchSuite b.id with
    | none =>
      simp [parseAllBuilds, List.foldl_cons, parseBuildStep, hf,
        List.filterMap_cons] at ih ⊢
      exact ih init
    | some s =>
      have ih2 := ih { init with TotalBuilds := init.TotalBuilds + 1, Data := processSuite init.Data s }
      simp [parseAllBuilds, List.foldl_cons, parseBuildStep, hf,
        List.filterMap_cons] at ih2 ⊢
      rw [ih2]
      ring

/-- C1: for every non-ignored test and every sequence of per-build pass/fail
states folded by the `ParseTests` analysis pass, the accumulated flake score
equals 0.5 times the number of adjacent pairs that differ in the observation
sequence prefixed by the synthetic seed value `true`; consequently the score
never decreases as further builds are folded in. -/
theorem C1_flake_score_transitions (fetchSuite : String → Option TestSuite)
    (builds : List Build) (t : String)
    (ht : ignoreTestCases.contains t = false) :
    (lookupTH (parseAllBuilds fetchSuite builds emptyHistory).Data t).Flakes
        = (countAdj (true :: observedStates fetchSuite builds t) : ℚ) / 2
    ∧ ∀ more : List Build,
        (lookupTH (parseAllBuilds fetchSuite builds emptyHistory).Data t).Flakes
          ≤ (lookupTH (parseAllBuilds fetchSuite (builds ++ more)
              emptyHistory).Data t).Flakes := by
  have key : ∀ bs : List Build,
      (lookupTH (parseAllBuilds fetchSuite bs emptyHistory).Data t).Flakes
        = (countAdj (true :: observedStates fetchSuite bs t) : ℚ) / 2 := by
    intro bs
    rw [lookupTH_parseAllBuilds fetchSuite t ht bs emptyHistory]
    have hseed : lookupTH emptyHistory.Data t =
        { PreviousState := true, Flakes := 0 } := rfl
    rw [hseed, flakeFoldFrom_flakes]
    simp
  refine ⟨key builds, fun more => ?_⟩
  rw [key builds, key (builds ++ more), observedStates_append]
  have hle : countAdj (true :: observedStates fetchSuite builds t)
      ≤ countAdj (true :: (observedStates fetchSuite builds t
          ++ observedStates fetchSuite more t)) := by
    simpa using countAdj_le_append
      (true :: observedStates fetchSuite builds t)
      (observedStates fetchSuite more t)
  have hq : (countAdj (true :: observedStates fetchSuite builds t) : ℚ)
      ≤ countAdj (true :: (observedStates fetchSuite builds t
          ++ observedStates fetchSuite more t)) := by
    exact_mod_cast hle
  linarith

/-- Witness for C1 at a concrete job: three builds whose `ex-test` states are
pass, fail, pass. -/
theorem C1_flake_score_transitions_witness :
    ignoreTestCases.contains "ex-test" = false
    ∧ ((lookupTH (parseAllBuilds exFetch exBuilds emptyHistory).Data
          "ex-test").Flakes
        = (countAdj (true :: observedStates exFetch exBuilds "ex-test") : ℚ) / 2
      ∧ ∀ more : List Build,
          (lookupTH (parseAllBuilds exFetch exBuilds emptyHistory).Data
              "ex-test").Flakes
            ≤ (lookupTH (parseAllBuilds exFetch (exBuilds ++ more)
                emptyHistory).Data "ex-test").Flakes) :=
  ⟨by decide, C1_flake_score_transitions exFetch exBuilds "ex-test" (by decide)⟩

/-- C6: a test name in the configured ignore set never alters the history:
the analysis fold leaves its (absent or present) tracking entry exactly as
it was, whatever the builds record for it. -/
theorem C6_ignored_leaves_history (t : String)
    (ht : ignoreTestCases.contains t = true)
    (fetchSuite : String → Option TestSuite) (builds : List Build)
    (init : JobHistory) :
    dataLookup (parseAllBuilds fetchSuite builds init).Data t =
      dataLookup init.Data t :=
  dataLookup_parseAllBuilds_ignored t ht fetchSuite builds init

/-- Witness for C6: the ignored monitor test flips across the example builds
yet acquires no tracking entry. -/
theorem C6_ignored_leaves_history_witness :
    ignoreTestCases.contains "[sig-arch] Monitor cluster while tests execute" = true
    ∧ dataLookup (parseAllBuilds exFetch exBuilds emptyHistory).Data
        "[sig-arch] Monitor cluster while tests execute"
      = dataLookup emptyHistory.Data
        "[sig-arch] Monitor cluster while tests execute" :=
  ⟨by decide, C6_ignored_leaves_history _ (by decide) exFetch exBuilds emptyHistory⟩

/-- C7: the number of differing adjacent pairs of an observation sequence
(seed pair excluded) is invariant under reversal, so the newest-first
processing order does not change the accumulated transition count; only the
comparison against the synthetic seed depends on direction, contributing
exactly one extra transition when the first processed state is a failure. -/
theorem C7_transitions_reverse_invariant (l : List Bool) :
    countAdj l.reverse = countAdj l
    ∧ countAdj (true :: l) = (if l.head?.getD true then 0 else 1) + countAdj l := by
  refine ⟨countAdj_reverse l, ?_⟩
  rw [countAdj_cons_head true l]
  cases hl : l.head? with
  | none => simp
  | some b => cases b <;> simp

/-- C9: build identifiers sorted as opaque strings: {"9","10","11"} yields
["10","11","9"], not numeric order; `ListBuilds` takes its "most recent"
build from the end of that sequence, so with a window of one it selects
build "9" rather than "11". -/
theorem C9_string_sort_order :
    sortStrings ["9", "10", "11"] = ["10", "11", "9"]
    ∧ ListBuilds ["9", "10", "11"] (fun _ => some exFinished) 1
        = some [{ id := "9", finished := exFinished }] :=
  ⟨by decide, by decide⟩

/-- C10: `ParseTests` presupposes a non-empty builds list: with zero builds
the Go code indexes `builds[0]` and panics — modelled as `none` — instead
of returning an empty history, while any non-empty list returns normally. -/
theorem C10_parseTests_needs_builds :
    (∀ (fetchSuite : String → Option TestSuite) (init : JobHistory),
        ParseTests fetchSuite [] init = none)
    ∧ (∀ (fetchSuite : String → Option TestSuite) (b : Build)
        (bs : List Build) (init : JobHistory),
        (ParseTests fetchSuite (b :: bs) init).isSome = true) :=
  ⟨fun _ _ => rfl, fun _ _ _ _ => rfl⟩

theorem serialize_flushed_roundtrip (h init : JobHistory)
    (hbig : writerBufferSize < blobBytes (encodeHistory h)) :
    Deserialize (some (Serialize h)) init = (true, h) := by
  simp [Serialize, hbig, Deserialize, decode_encode]

/-- C2 at the failing input: `exHistory`'s gob blob is far smaller than the
4096-byte writer buffer that `Serialize` never flushes, so the cache file
is left empty; a later run's `Deserialize` still reports the cache as found
but keeps the fresh empty history, whose data is not that of the saved
one — the save/load round-trip the claim states fails. (Blobs larger than
the buffer are written through directly and do round-trip:
`serialize_flushed_roundtrip`.) -/
theorem C2_roundtrip_lost_in_buffer :
    blobBytes (encodeHistory exHistory) ≤ writerBufferSize
    ∧ Serialize exHistory = []
    ∧ Deserialize (some (Serialize exHistory)) emptyHistory
        = (true, emptyHistory)
    ∧ emptyHistory.Data ≠ exHistory.Data := by
  refine ⟨by decide, by decide, ?_, by decide⟩
  rfl

/-- C4 counterexample: a cache file that opens but whose contents fail to
decode still makes `Deserialize` report `true`, contradicting the claim that
decode failures count as "not found". -/
theorem C4_decode_failure_still_found :
    decodeHistory [Token.int 0] = none
    ∧ (Deserialize (some [Token.int 0]) emptyHistory).1 = true :=
  ⟨rfl, rfl⟩

/-- C4 amended: the boolean result of `Deserialize` is `true` iff the cache
file could be opened at all, regardless of whether its contents decode; a
decode failure is only logged and the cache is still reported as found. -/
theorem C4_load_result_is_file_presence (file : Option (List Token))
    (hist : JobHistory) :
    (Deserialize file hist).1 = file.isSome := by
  cases file with
  | none => rfl
  | some ts => cases hdec : decodeHistory ts <;> simp [Deserialize, hdec]

/-- C5 counterexample: a malformed test report aborts nothing: with one
unreadable build and one good one, `ParseTests` returns a nil error and
keeps analyzing (the good build is counted), so the job is not skipped and
the bad build is dropped silently. -/
theorem C5_parse_error_not_fatal :
    runOk (ParseTests exFetch [exBuild "nope", exBuild "1"] emptyHistory) = true
    ∧ runTotal (ParseTests exFetch [exBuild "nope", exBuild "1"] emptyHistory)
        = some 1 := by
  constructor
  · rfl
  · have htot := parseAllBuilds_totalBuilds exFetch
      [exBuild "nope", exBuild "1"] emptyHistory
    have hlen : (([exBuild "nope", exBuild "1"] : List Build).filterMap
        (fun b => exFetch b.id)).length = 1 := rfl
    rw [hlen] at htot
    show some ((parseAllBuilds exFetch [exBuild "nope", exBuild "1"]
      emptyHistory).TotalBuilds) = some 1
    rw [htot]
    norm_num [emptyHistory]

/-- C5 amended: for every non-empty build list, `ParseTests` returns a nil
error; each build whose report fetch or parse fails is skipped silently,
and exactly the builds with a readable report are counted. -/
theorem C5_bad_builds_skipped (fetchSuite : String → Option TestSuite)
    (builds : List Build) (init : JobHistory) (hne : builds ≠ []) :
    ∃ h : JobHistory,
      ParseTests fetchSuite builds init = some (Except.ok h)
      ∧ h.TotalBuilds = init.TotalBuilds
          + ((builds.filterMap (fun b => fetchSuite b.id)).length : ℚ) := by
  match builds, hne with
  | b :: bs, _ =>
    refine ⟨_, rfl, ?_⟩
    simpa using parseAllBuilds_totalBuilds fetchSuite (b :: bs) init

/-- Witness for the amended C5 at the concrete two-build job. -/
theorem C5_bad_builds_skipped_witness :
    ([exBuild "nope", exBuild "1"] : List Build) ≠ []
    ∧ ∃ h : JobHistory,
        ParseTests exFetch [exBuild "nope", exBuild "1"] emptyHistory
          = some (Except.ok h)
        ∧ h.TotalBuilds = emptyHistory.TotalBuilds
            + ((([exBuild "nope", exBuild "1"] : List Build).filterMap
                (fun b => exFetch b.id)).length : ℚ) :=
  ⟨by decide,
    C5_bad_builds_skipped exFetch [exBuild "nope", exBuild "1"] emptyHistory
      (by decide)⟩

/-- C3 at the failing inputs: with candidates {"1","2"} where build "1" has
no completion record and a window of 2, and likewise with zero candidates,
`ListBuilds` walks its index past 0 and performs the out-of-range slice
access (modelled `none`) instead of returning the finished builds it has. -/
theorem C3_exhaustion_out_of_range :
    ListBuilds ["1", "2"] (fun s => if s = "2" then some exFinished else none) 2
        = none
    ∧ ListBuilds [] (fun _ => some exFinished) 10 = none :=
  ⟨by decide, by decide⟩

theorem flakyTests_mem_iff (h : JobHistory) (p : String × ℚ) :
    p ∈ flakyTests h ↔
      p ∈ (h.Data.filter (fun kv => !(kv.2.Flakes == 0))).map
        (fun kv => (kv.1, kv.2.Flakes / h.TotalBuilds)) :=
  (List.perm_insertionSort _ _).mem_iff

theorem dataInsert_mem :
    ∀ (d : List (String × TestHistory)) (k : String) (v : TestHistory)
      (kv : String × TestHistory), kv ∈ dataInsert d k v → kv = (k, v) ∨ kv ∈ d
  | [], k, v, kv => by simp [dataInsert]
  | (k0, v0) :: rest, k, v, kv => by
    by_cases hk : k0 = k
    · simp only [dataInsert, hk, beq_self_eq_true, if_true, List.mem_cons]
      rintro (h | h)
      · exact Or.inl h
      · exact Or.inr (Or.inr h)
    · simp only [dataInsert, beq_iff_eq, hk, if_false, List.mem_cons]
      rintro (h | h)
      · exact Or.inr (Or.inl h)
      · rcases dataInsert_mem rest k v kv h with h2 | h2
        · exact Or.inl h2
        · exact Or.inr (Or.inr h2)

theorem dataLookup_mem :
    ∀ (d : List (String × TestHistory)) (t : String) (v : TestHistory),
      dataLookup d t = some v → (t, v) ∈ d
  | [], t, v => by simp [dataLookup]
  | (k0, v0) :: rest, t, v => by
    by_cases hk : k0 = t
    · subst hk
      simp only [dataLookup, beq_self_eq_true, if_true, Option.some_inj,
        List.mem_cons]
      rintro rfl
      exact Or.inl rfl
    · simp only [dataLookup, beq_iff_eq, hk, if_false, List.mem_cons]
      intro h
      exact Or.inr (dataLookup_mem rest t v h)

theorem processTestCase_nonneg (d : List (String × TestHistory)) (tc : TestCase)
    (hd : ∀ kv ∈ d, 0 ≤ kv.2.Flakes) :
    ∀ kv ∈ processTestCase d tc, 0 ≤ kv.2.Flakes := by
  intro kv hkv
  by_cases hi : tc.Ignore
  · exact hd kv (by simpa [processTestCase, hi] using hkv)
  · simp only [processTestCase, hi, Bool.false_eq_true, if_false] at hkv
    rcases dataInsert_mem d tc.Name _ kv hkv with heq | hmem
    · subst heq
      have hbase : 0 ≤ (lookupTH d tc.Name).Flakes := by
        unfold lookupTH
        cases hl : dataLookup d tc.Name with
        | none => simp
        | some v => simpa using hd _ (dataLookup_mem d tc.Name v hl)
      simp only [flakeStep]
      split
      · linarith
      · exact hbase
    · exact hd kv hmem

theorem processCases_nonneg :
    ∀ (cs : List TestCase) (d : List (String × TestHistory)),
      (∀ kv ∈ d, 0 ≤ kv.2.Flakes) →
      ∀ kv ∈ cs.foldl processTestCase d, 0 ≤ kv.2.Flakes
  | [], _, hd => hd
  | tc :: cs, d, hd => by
    simpa [List.foldl_cons] using
      processCases_nonneg cs (processTestCase d tc)
        (processTestCase_nonneg d tc hd)

theorem parseAllBuilds_nonneg (fetchSuite : String → Option TestSuite) :
    ∀ (builds : List Build) (init : JobHistory),
      (∀ kv ∈ init.Data, 0 ≤ kv.2.Flakes) →
      ∀ kv ∈ (parseAllBuilds fetchSuite builds init).Data, 0 ≤ kv.2.Flakes
  | [], _, hd => hd
  | b :: bs, init, hd => by
    cases hf : fetchSuite b.id with
    | none =>
      simpa [parseAllBuilds, List.foldl_cons, parseBuildStep, hf] using
        parseAllBuilds_nonneg fetchSuite bs init hd
    | some s =>
      have hstep : ∀ kv ∈ processSuite init.Data s, 0 ≤ kv.2.Flakes :=
        processCases_nonneg s.TestCases init.Data hd
      simpa [parseAllBuilds, List.foldl_cons, parseBuildStep, hf] using
        parseAllBuilds_nonneg fetchSuite bs
          { init with TotalBuilds := init.TotalBuilds + 1, Data := processSuite init.Data s }
          (by simpa using hstep)

/-- C8: under the program invariant that accumulated flake scores are
nonnegative (established for every run by `parseAllBuilds_nonneg`), the
rendered report lists exactly the tests with a positive flake score, each
reported as `Flakes / TotalBuilds`, sorted by flakiness descending; a test
with a zero score never appears. -/
theorem C8_report_exactly_flaky (h : JobHistory)
    (hnn : ∀ kv ∈ h.Data, 0 ≤ kv.2.Flakes) :
    (∀ t q, (t, q) ∈ flakyTests h →
        ∃ thc, (t, thc) ∈ h.Data ∧ 0 < thc.Flakes
          ∧ q = thc.Flakes / h.TotalBuilds)
    ∧ (∀ t thc, (t, thc) ∈ h.Data → 0 < thc.Flakes →
        (t, thc.Flakes / h.TotalBuilds) ∈ flakyTests h)
    ∧ List.Pairwise (fun a b : String × ℚ => b.2 ≤ a.2) (flakyTests h) := by
  refine ⟨?_, ?_, ?_⟩
  · intro t q hm
    rw [flakyTests_mem_iff] at hm
    simp only [List.mem_map, List.mem_filter] at hm
    obtain ⟨⟨k, thc⟩, ⟨hmem, hne⟩, heq⟩ := hm
    obtain ⟨hk, hq⟩ := Prod.mk.injEq .. ▸ heq
    refine ⟨thc, hk ▸ hmem, ?_, hq.symm⟩
    have hne2 : thc.Flakes ≠ 0 := by simpa using hne
    exact lt_of_le_of_ne (hnn _ hmem) (Ne.symm hne2)
  · intro t thc hmem hpos
    rw [flakyTests_mem_iff]
    simp only [List.mem_map, List.mem_filter]
    exact ⟨(t, thc), ⟨hmem, by simpa using ne_of_gt hpos⟩, rfl⟩
  · haveI : IsTotal (String × ℚ) (fun a b => b.2 ≤ a.2) :=
      ⟨fun a b => le_total b.2 a.2⟩
    haveI : IsTrans (String × ℚ) (fun a b => b.2 ≤ a.2) :=
      ⟨fun _ _ _ h1 h2 => le_trans h2 h1⟩
    exact List.sorted_insertionSort _ _

/-- Witness for C8 at the concrete two-test history: test "a" (score 1) is
reported, test "b" (score 0) is not. -/
theorem C8_report_exactly_flaky_witness :
    (∀ kv ∈ exHistory.Data, 0 ≤ kv.2.Flakes)
    ∧ ((∀ t q, (t, q) ∈ flakyTests exHistory →
          ∃ thc, (t, thc) ∈ exHistory.Data ∧ 0 < thc.Flakes
            ∧ q = thc.Flakes / exHistory.TotalBuilds)
      ∧ (∀ t thc, (t, thc) ∈ exHistory.Data → 0 < thc.Flakes →
          (t, thc.Flakes / exHistory.TotalBuilds) ∈ flakyTests exHistory)
      ∧ List.Pairwise (fun a b : String × ℚ => b.2 ≤ a.2)
          (flakyTests exHistory)) := by
  have hp : ∀ kv ∈ exHistory.Data, 0 ≤ kv.2.Flakes := by
    intro kv hkv
    simp only [exHistory, List.mem_cons, List.mem_singleton] at hkv
    rcases hkv with h | h | h
    · subst h; norm_num
    · subst h; norm_num
    · exact absurd h (List.not_mem_nil _)
  exact ⟨hp, C8_report_exactly_flaky exHistory hp⟩

end MetalIpi
